import Mathlib

/-!
Verification of the microflack_users service (src/app.py) against its
natural-language specification.

The embedding models the durable user store as a list of user records
(one record per table row, in row order).  Timestamps are integers, as
produced by `timestamp()` (`int(time.time())`) in the source.  Each HTTP
handler is embedded as a function from the store (plus the request data
and the current time) to an HTTP status together with the store the
handler leaves behind.  SQLAlchemy's `onupdate=timestamp` on the
`updated_at` column is modelled by the commit step: a record that was
actually changed gets `updated_at` set to the commit time, an unchanged
record is left alone (SQLAlchemy only issues an UPDATE for rows with a
net change).
-/

/-- A row of the `users` table (class `User` in src/app.py, lines 46-55):
`id` primary key, `created_at`, `updated_at`, `last_seen_at` integer
timestamps, unique `nickname`, `password_hash`, and the `online` flag. -/
structure UserRec where
  id : Nat
  created_at : Int
  updated_at : Int
  last_seen_at : Int
  nickname : String
  password_hash : String
  online : Bool
deriving Repr, DecidableEq

/-- The stored table of users, in row order. -/
abbrev Store := List UserRec

/-- `User.query.get(uid)` / `User.query.get_or_404(uid)`: look a user up
by primary key. -/
def lookupById (store : Store) (uid : Nat) : Option UserRec :=
  store.find? (fun u => u.id == uid)

/-- `User.query.filter_by(nickname=nick).first()`. -/
def lookupByNickname (store : Store) (nick : String) : Option UserRec :=
  store.find? (fun u => u.nickname == nick)

/-- `werkzeug.security.generate_password_hash`, opaque here: the model
only needs that a credential is stored in derived (hashed) form. -/
def generate_password_hash (password : String) : String :=
  String.append "pbkdf2:" password

/-- `User.ping` (src/app.py lines 68-71): mark the user as recently seen
and online. -/
def ping (now : Int) (u : UserRec) : UserRec :=
  { u with last_seen_at := now, online := true }

/-- Committing one possibly-modified record: SQLAlchemy issues an UPDATE
(firing `onupdate=timestamp` on `updated_at`, src/app.py line 51) only
when some column actually changed; an unchanged record is not written. -/
def commit_user (now : Int) (old new : UserRec) : UserRec :=
  if new = old then old else { new with updated_at := now }

/-- `user.ping()` followed by `db.session.commit()`, the touch operation
of the Presence Engine. -/
def touch (now : Int) (u : UserRec) : UserRec :=
  commit_user now u (ping now u)

/-- The predicate of the sweep's query
(`User.last_seen_at < timestamp() - 60, User.online == True`,
src/app.py lines 108-109). -/
def sweep_stale (now : Int) (u : UserRec) : Bool :=
  decide (u.last_seen_at < now - 60) && u.online

/-- The effect of one sweep on one row: a user matching the staleness
query gets `online = False` and is committed; any other row is left
untouched. -/
def sweep_row (now : Int) (u : UserRec) : UserRec :=
  if sweep_stale now u then
    commit_user now u { u with online := false }
  else u

/-- `User.find_offline_users` (src/app.py lines 105-113): every user
matching the staleness query gets `online = False` and is committed
(`online` changes from true to false, so the UPDATE fires and
`updated_at` advances); every other row is untouched.  All demotions of
one sweep belong to the same `db.session.commit()`. -/
def find_offline_users (now : Int) (store : Store) : Store :=
  store.map (sweep_row now)

/-- One iteration of the background sweep loop body
(src/app.py lines 119-124): the `User.find_offline_users()` call against
the store either succeeds at some current time, or the store raises
(e.g. a transient database failure), modelled as `Except.error`. -/
def sweep_iteration (store : Store) (outcome : Except String Int) :
    Except String Store :=
  match outcome with
  | Except.error e => Except.error e
  | Except.ok now => Except.ok (find_offline_users now store)

/-- The background loop started by `before_first_request`
(src/app.py lines 116-128), run over a finite schedule of iteration
outcomes (each entry is the time at which the iteration runs, or a store
failure).  The loop body has no try/except: the first raising iteration
propagates its error out of the loop and no later iteration runs. -/
def sweep_loop (store : Store) : List (Except String Int) → Except String Store
  | [] => Except.ok store
  | o :: rest =>
    match sweep_iteration store o with
    | Except.error e => Except.error e
    | Except.ok store2 => sweep_loop store2 rest

/-- A parsed JSON request body for the user endpoints
(`request.get_json() or {}`): the two fields `User.from_dict` reads,
each possibly absent. -/
structure Body where
  nickname : Option String
  password : Option String
deriving Repr, DecidableEq

/-- `User.from_dict(data, partial_update=True)` (src/app.py lines 80-87)
as used by `edit_user`: each of `nickname` and `password` present in the
body is written onto the record (`password` through the hashing setter);
an absent field is skipped without error. -/
def from_dict_update (u : UserRec) (body : Body) : UserRec :=
  let u1 := match body.nickname with
    | some n => { u with nickname := n }
    | none => u
  match body.password with
    | some p => { u1 with password_hash := generate_password_hash p }
    | none => u1

/-- `new_user` (POST /api/users, src/app.py lines 142-156).
`User.create` builds a fresh record whose column defaults
(`created_at`, `updated_at`, `last_seen_at` = the insert timestamp,
`online` = False) apply at commit; `from_dict(..., partial_update=False)`
aborts with 400 if `nickname` or `password` is missing; the handler then
aborts with 400 if the nickname is already taken, else inserts the row.
`nextId` is the primary key the database assigns to the new row.
Returns the HTTP status and the store left behind. -/
def new_user (now : Int) (nextId : Nat) (store : Store) (body : Body) :
    Nat × Store :=
  match body.nickname, body.password with
  | some nick, some pw =>
    if (lookupByNickname store nick).isSome then (400, store)
    else
      (201, store ++ [{ id := nextId, created_at := now, updated_at := now,
                        last_seen_at := now, nickname := nick,
                        password_hash := generate_password_hash pw,
                        online := false }])
  | _, _ => (400, store)

/-- `edit_user` (PUT /api/users/<id>, src/app.py lines 187-201), after
token authentication resolved the caller to `callerId`:
404 if no user has the path id; 403 if the found user's id differs from
the token's `user_id` claim; otherwise the body is merged in and
committed.  The commit models the database's UNIQUE constraint on
`nickname` (src/app.py line 53): a commit whose nickname collides with a
different row raises IntegrityError, which no handler catches, so the
request fails with 500 and the transaction leaves the store unchanged.
An edit that changes nothing issues no UPDATE (so `updated_at` stays). -/
def edit_user (now : Int) (store : Store) (pathId callerId : Nat)
    (body : Body) : Nat × Store :=
  match lookupById store pathId with
  | none => (404, store)
  | some u =>
    if u.id ≠ callerId then (403, store)
    else
      let u2 := from_dict_update u body
      if store.any (fun v => v.id ≠ u.id && v.nickname == u2.nickname) then
        (500, store)
      else
        (204, store.map (fun v => if v.id == u.id then commit_user now u u2 else v))

/-- `before_request` (src/app.py lines 131-139) for a request whose
token carried a `user_id` claim: the claimed user is pinged and
committed; if the claimed user does not exist the request aborts
with 500 (`none` here). -/
def before_request_ping (now : Int) (store : Store) (callerId : Nat) :
    Option Store :=
  match lookupById store callerId with
  | none => none
  | some _ =>
    some (store.map (fun v => if v.id == callerId then touch now v else v))

/-- A full PUT /api/users/<pathId> request carrying a valid token that
resolved to `callerId`: `before_request` pings the caller (500 if the
caller's record is gone), then `edit_user` runs. -/
def put_user_request (now : Int) (store : Store) (pathId callerId : Nat)
    (body : Body) : Nat × Store :=
  match before_request_ping now store callerId with
  | none => (500, store)
  | some store2 => edit_user now store2 pathId callerId body

/-- Bytewise-lexicographic order on code points, the database's ordering
for `User.nickname.asc()`: auxiliary on the character lists. -/
def strLeAux : List Char → List Char → Bool
  | [], _ => true
  | _ :: _, [] => false
  | a :: as, b :: bs =>
    if a.toNat < b.toNat then true
    else if b.toNat < a.toNat then false
    else strLeAux as bs

/-- Lexicographic `≤` on strings (the `nickname ASC` sort key). -/
def strLe (a b : String) : Bool := strLeAux a.data b.data

/-- The ORDER BY of `get_users`
(`User.updated_at.asc(), User.nickname.asc()`, src/app.py line 167):
`updated_at` ascending, ties broken by `nickname` ascending. -/
def userOrd (u v : UserRec) : Prop :=
  u.updated_at < v.updated_at ∨
    (u.updated_at = v.updated_at ∧ strLe u.nickname v.nickname = true)

instance : DecidableRel userOrd := by
  unfold userOrd
  infer_instance

/-- The query string of GET /api/users: the raw values of the `online`
and `updated_since` parameters (`request.args.get`), `none` when the
parameter is absent. -/
structure QueryArgs where
  online : Option String
  updated_since : Option String
deriving Repr, DecidableEq

/-- Python truthiness of `request.args.get(name)`: false when the
parameter is absent (None) and when its value is the empty string. -/
def argTruthy : Option String → Bool
  | none => false
  | some s => !(s == "")

/-- Decimal digits to a number; `none` on a non-digit or on no digits. -/
def parseDigits : List Char → Option Nat
  | [] => none
  | ds => parseDigitsAux 0 ds
where parseDigitsAux : Nat → List Char → Option Nat
  | acc, [] => some acc
  | acc, c :: cs =>
    if 48 ≤ c.toNat ∧ c.toNat ≤ 57 then
      parseDigitsAux (acc * 10 + (c.toNat - 48)) cs
    else none

/-- Python's `int(s)` on the strings relevant here: an optional sign
followed by decimal digits; any other string raises ValueError (`none`). -/
def python_int (s : String) : Option Int :=
  match s.data with
  | '-' :: rest => (parseDigits rest).map (fun n => -(n : Int))
  | '+' :: rest => (parseDigits rest).map (fun n => (n : Int))
  | ds => (parseDigits ds).map (fun n => (n : Int))

/-- The query built by `get_users` (src/app.py lines 159-173) on a given
store: the `online` filter applies only when the parameter is truthy and
selects offline users exactly for the value `'0'`
(`filter_by(online=(request.args.get('online') != '0'))`); the
`updated_since` filter applies only when that parameter is truthy and
keeps users with `updated_at >= int(value)`; the result is ordered by
`updated_at` ascending then `nickname` ascending.  `none` models the
uncaught ValueError (HTTP 500) when `int()` rejects the value. -/
def get_users_list (store : Store) (args : QueryArgs) : Option (List UserRec) :=
  let q1 :=
    if argTruthy args.online then
      store.filter (fun u => u.online == !(args.online.getD "" == "0"))
    else store
  if argTruthy args.updated_since then
    match python_int (args.updated_since.getD "") with
    | none => none
    | some v =>
      some (List.insertionSort userOrd (q1.filter (fun u => decide (v ≤ u.updated_at))))
  else
    some (List.insertionSort userOrd q1)

/-- The bearer token accompanying a request: absent, present but
invalid, or valid and carrying the `user_id` claim `uid`. -/
inductive TokenPresented where
  | missing
  | invalid
  | valid (uid : Nat)
deriving Repr, DecidableEq

/-- The optional token authentication gate guarding the read endpoints
(`token_optional_auth.login_required`).  The verification callback lives
in the external microflack_common package; its observable contract is
pinned by this repository's test suite (src/tests.py lines 28-34: a GET
with no token succeeds, a GET with the invalid token 'bad-token' is
answered 401): a missing token proceeds anonymously with no claims, an
invalid token is rejected with 401, a valid token yields its claims. -/
def token_optional_auth : TokenPresented → Except Nat (Option Nat)
  | TokenPresented.missing => Except.ok none
  | TokenPresented.invalid => Except.error 401
  | TokenPresented.valid uid => Except.ok (some uid)

/-- The outcome of a GET /api/users request: HTTP status, the serialized
user list for a 200, and the store the request leaves behind. -/
structure GetUsersResult where
  status : Nat
  listed : Option (List UserRec)
  store : Store
deriving Repr, DecidableEq

/-- A full GET /api/users request: the optional-auth gate resolves the
token (401 stops the request); `before_request` pings the caller when
the claims carry a `user_id` (500 if that user is gone); then the
`get_users` handler runs. -/
def get_users_request (now : Int) (store : Store) (tok : TokenPresented)
    (args : QueryArgs) : GetUsersResult :=
  match token_optional_auth tok with
  | Except.error code => { status := code, listed := none, store := store }
  | Except.ok none =>
    match get_users_list store args with
    | none => { status := 500, listed := none, store := store }
    | some l => { status := 200, listed := some l, store := store }
  | Except.ok (some uid) =>
    match before_request_ping now store uid with
    | none => { status := 500, listed := none, store := store }
    | some store2 =>
      match get_users_list store2 args with
      | none => { status := 500, listed := none, store := store2 }
      | some l => { status := 200, listed := some l, store := store2 }

theorem strLeAux_total : ∀ as bs, strLeAux as bs = true ∨ strLeAux bs as = true
  | [], _ => Or.inl rfl
  | _ :: _, [] => Or.inr rfl
  | a :: as, b :: bs => by
    by_cases h1 : a.toNat < b.toNat
    · left; simp [strLeAux, h1]
    · by_cases h2 : b.toNat < a.toNat
      · right; simp [strLeAux, h2]
      · rcases strLeAux_total as bs with h | h
        · left; simp [strLeAux, h1, h2, h]
        · right; simp [strLeAux, h1, h2, h]

theorem strLeAux_trans : ∀ as bs cs, strLeAux as bs = true →
    strLeAux bs cs = true → strLeAux as cs = true
  | [], _, _, _, _ => rfl
  | _ :: _, [], _, h1, _ => by simp [strLeAux] at h1
  | _ :: _, _ :: _, [], _, h2 => by simp [strLeAux] at h2
  | a :: as, b :: bs, c :: cs, h1, h2 => by
    simp only [strLeAux] at h1 h2 ⊢
    by_cases hab : a.toNat < b.toNat <;> by_cases hba : b.toNat < a.toNat <;>
      by_cases hbc : b.toNat < c.toNat <;> by_cases hcb : c.toNat < b.toNat <;>
        simp [hab, hba, hbc, hcb] at h1 h2 ⊢ <;>
          first
            | omega
            | exact Or.inr ⟨by omega, strLeAux_trans as bs cs h1 h2⟩

instance : IsTotal UserRec userOrd := by
  constructor
  intro u v
  rcases lt_trichotomy u.updated_at v.updated_at with h | h | h
  · exact Or.inl (Or.inl h)
  · rcases strLeAux_total u.nickname.data v.nickname.data with hs | hs
    · exact Or.inl (Or.inr ⟨h, hs⟩)
    · exact Or.inr (Or.inr ⟨h.symm, hs⟩)
  · exact Or.inr (Or.inl h)

instance : IsTrans UserRec userOrd := by
  constructor
  intro u v w huv hvw
  rcases huv with h1 | ⟨h1, hs1⟩ <;> rcases hvw with h2 | ⟨h2, hs2⟩
  · exact Or.inl (lt_trans h1 h2)
  · exact Or.inl (h2 ▸ h1)
  · exact Or.inl (h1 ▸ h2)
  · exact Or.inr ⟨h1.trans h2, strLeAux_trans _ _ _ hs1 hs2⟩

theorem commit_user_id (now : Int) (old new : UserRec) :
    (commit_user now old new).id = new.id := by
  unfold commit_user; split
  · next h => rw [h]
  · rfl

theorem commit_user_nickname (now : Int) (old new : UserRec) :
    (commit_user now old new).nickname = new.nickname := by
  unfold commit_user; split
  · next h => rw [h]
  · rfl

theorem commit_user_last_seen_at (now : Int) (old new : UserRec) :
    (commit_user now old new).last_seen_at = new.last_seen_at := by
  unfold commit_user; split
  · next h => rw [h]
  · rfl

theorem commit_user_online (now : Int) (old new : UserRec) :
    (commit_user now old new).online = new.online := by
  unfold commit_user; split
  · next h => rw [h]
  · rfl

theorem commit_user_created_at (now : Int) (old new : UserRec) :
    (commit_user now old new).created_at = new.created_at := by
  unfold commit_user; split
  · next h => rw [h]
  · rfl

theorem commit_user_password_hash (now : Int) (old new : UserRec) :
    (commit_user now old new).password_hash = new.password_hash := by
  unfold commit_user; split
  · next h => rw [h]
  · rfl

/-- Well-formedness of the store: the UNIQUE constraints of the `users`
table — primary-key ids and nicknames are free of duplicates. -/
def StoreWF (store : Store) : Prop :=
  (store.map (fun u => u.id)).Nodup ∧ (store.map (fun u => u.nickname)).Nodup

/-- The store states reachable through the service's operations, from
the empty table: user creation (the database hands the new row a fresh
primary key), self-edit, the sweep, and the presence touch of one user
(the `before_request` / `verify_password` ping). -/
inductive Reachable : Store → Prop where
  | empty : Reachable []
  | create (now : Int) (nid : Nat) (body : Body) (store : Store) :
      Reachable store → (∀ u ∈ store, u.id ≠ nid) →
      Reachable (new_user now nid store body).2
  | edit (now : Int) (pathId callerId : Nat) (body : Body) (store : Store) :
      Reachable store → Reachable (edit_user now store pathId callerId body).2
  | sweep (now : Int) (store : Store) :
      Reachable store → Reachable (find_offline_users now store)
  | touchUser (now : Int) (uid : Nat) (store : Store) :
      Reachable store →
      Reachable (store.map (fun v => if v.id == uid then touch now v else v))

theorem from_dict_update_id (u : UserRec) (body : Body) :
    (from_dict_update u body).id = u.id := by
  cases hb : body.nickname <;> cases hp : body.password <;>
    simp [from_dict_update, hb, hp]

theorem touch_id (now : Int) (u : UserRec) : (touch now u).id = u.id := by
  rw [touch, commit_user_id]; rfl

theorem touch_nickname (now : Int) (u : UserRec) :
    (touch now u).nickname = u.nickname := by
  rw [touch, commit_user_nickname]; rfl

theorem map_map_field {β : Type} (store : Store) (f : UserRec → UserRec)
    (g : UserRec → β) (h : ∀ v, g (f v) = g v) :
    (store.map f).map g = store.map g := by
  rw [List.map_map]
  exact List.map_congr_left (fun a _ => h a)

theorem storeWF_map (store : Store) (f : UserRec → UserRec)
    (hid : ∀ v, (f v).id = v.id) (hnick : ∀ v, (f v).nickname = v.nickname)
    (hwf : StoreWF store) : StoreWF (store.map f) := by
  obtain ⟨h1, h2⟩ := hwf
  constructor
  · rw [map_map_field store f (fun u => u.id) hid]; exact h1
  · rw [map_map_field store f (fun u => u.nickname) hnick]; exact h2

theorem wf_find_offline_users (now : Int) (store : Store)
    (hwf : StoreWF store) : StoreWF (find_offline_users now store) := by
  unfold find_offline_users
  refine storeWF_map store _ ?_ ?_ hwf <;> intro v <;>
    by_cases h : sweep_stale now v <;>
      simp [sweep_row, h, commit_user_id, commit_user_nickname]

theorem wf_new_user (now : Int) (nid : Nat) (store : Store) (body : Body)
    (hwf : StoreWF store) (hfresh : ∀ u ∈ store, u.id ≠ nid) :
    StoreWF (new_user now nid store body).2 := by
  obtain ⟨hids, hnicks⟩ := hwf
  obtain ⟨nickOpt, pwOpt⟩ := body
  cases nickOpt with
  | none => cases pwOpt <;> exact ⟨hids, hnicks⟩
  | some nick =>
    cases pwOpt with
    | none => exact ⟨hids, hnicks⟩
    | some pw =>
      cases hn : lookupByNickname store nick with
      | some w => simp [new_user, hn]; exact ⟨hids, hnicks⟩
      | none =>
        simp only [new_user, hn, Option.isSome_none, Bool.false_eq_true,
          if_false]
        have hfree : ∀ x ∈ store, x.nickname ≠ nick := by
          intro x hx
          have := List.find?_eq_none.mp hn x hx
          simpa using this
        constructor
        · simp only [List.map_append, List.map_cons, List.map_nil]
          rw [List.nodup_append]
          refine ⟨hids, List.nodup_singleton _, ?_⟩
          intro a ha hb
          simp only [List.mem_singleton] at hb
          simp only [List.mem_map] at ha
          obtain ⟨x, hx, hxa⟩ := ha
          exact hfresh x hx (hxa.trans hb)
        · simp only [List.map_append, List.map_cons, List.map_nil]
          rw [List.nodup_append]
          refine ⟨hnicks, List.nodup_singleton _, ?_⟩
          intro a ha hb
          simp only [List.mem_singleton] at hb
          simp only [List.mem_map] at ha
          obtain ⟨x, hx, hxa⟩ := ha
          exact hfree x hx (hxa.trans hb)

theorem wf_edit_user (now : Int) (store : Store) (pathId callerId : Nat)
    (body : Body) (hwf : StoreWF store) :
    StoreWF (edit_user now store pathId callerId body).2 := by
  obtain ⟨hids, hnicks⟩ := hwf
  unfold edit_user
  cases hu : lookupById store pathId with
  | none => exact ⟨hids, hnicks⟩
  | some u =>
    dsimp only
    by_cases hcaller : u.id ≠ callerId
    · rw [if_pos hcaller]; exact ⟨hids, hnicks⟩
    · rw [if_neg hcaller]
      by_cases hany : (store.any
          (fun v => v.id ≠ u.id && v.nickname == (from_dict_update u body).nickname)) = true
      · rw [if_pos hany]; exact ⟨hids, hnicks⟩
      · rw [if_neg hany]
        rw [Bool.not_eq_true, List.any_eq_false] at hany
        have idInj := List.inj_on_of_nodup_map hids
        have nickInj := List.inj_on_of_nodup_map hnicks
        have hstore : store.Nodup := List.Nodup.of_map _ hids
        constructor
        · rw [map_map_field]
          · exact hids
          · intro v
            by_cases hv : (v.id == u.id) = true
            · have hv2 : v.id = u.id := by simpa using hv
              simp [hv, commit_user_id, from_dict_update_id, hv2]
            · simp [hv]
        · rw [List.map_map]
          refine List.Nodup.map_on ?_ hstore
          intro x hx y hy hxy
          simp only [Function.comp] at hxy
          by_cases hxid : (x.id == u.id) = true <;>
            by_cases hyid : (y.id == u.id) = true
          · simp only [beq_iff_eq] at hxid hyid
            exact idInj hx hy (hxid.trans hyid.symm)
          · rw [if_pos hxid, if_neg hyid, commit_user_nickname] at hxy
            exfalso
            have hyne : y.id ≠ u.id := by simpa using hyid
            have hy2 := hany y hy
            rw [Bool.not_eq_true, Bool.and_eq_false_iff] at hy2
            rcases hy2 with h | h
            · exact hyne (by simpa using h)
            · rw [beq_eq_false_iff_ne] at h
              exact h hxy.symm
          · rw [if_neg hxid, if_pos hyid, commit_user_nickname] at hxy
            exfalso
            have hxne : x.id ≠ u.id := by simpa using hxid
            have hx2 := hany x hx
            rw [Bool.not_eq_true, Bool.and_eq_false_iff] at hx2
            rcases hx2 with h | h
            · exact hxne (by simpa using h)
            · rw [beq_eq_false_iff_ne] at h
              exact h hxy
          · rw [if_neg hxid, if_neg hyid] at hxy
            exact nickInj hx hy hxy

theorem reachable_wf : ∀ store, Reachable store → StoreWF store := by
  intro store h
  induction h with
  | empty => exact ⟨List.nodup_nil, List.nodup_nil⟩
  | create now nid body store _ hfresh ih => exact wf_new_user now nid store body ih hfresh
  | edit now pathId callerId body store _ ih =>
    exact wf_edit_user now store pathId callerId body ih
  | sweep now store _ ih => exact wf_find_offline_users now store ih
  | touchUser now uid store _ ih =>
    refine storeWF_map store _ ?_ ?_ ih <;> intro v <;>
      by_cases hv : (v.id == uid) = true <;>
        simp [hv, touch_id, touch_nickname]

theorem lookupById_map (store : Store) (f : UserRec → UserRec) (uid : Nat)
    (hid : ∀ v, (f v).id = v.id) :
    lookupById (store.map f) uid = Option.map f (lookupById store uid) := by
  unfold lookupById
  induction store with
  | nil => rfl
  | cons a l ih =>
    simp only [List.map_cons, List.find?_cons]
    by_cases ha : (a.id == uid) = true
    · rw [hid a] at *
      simp [ha]
    · have hfa : ((f a).id == uid) = false := by
        rw [hid a]; simpa using ha
      have ha2 : (a.id == uid) = false := by simpa using ha
      rw [hfa, ha2]
      exact ih

theorem lookupById_mem (store : Store) (uid : Nat) (u : UserRec)
    (h : lookupById store uid = some u) : u ∈ store :=
  List.mem_of_find?_eq_some h

theorem lookupById_id (store : Store) (uid : Nat) (u : UserRec)
    (h : lookupById store uid = some u) : u.id = uid := by
  have := List.find?_some h
  simpa using this

/-- The pointwise behaviour of one sweep over one stored row. -/
theorem sweep_row_spec (now : Int) (u : UserRec) :
    (sweep_row now u).last_seen_at = u.last_seen_at ∧
    (u.online = true → u.last_seen_at < now - 60 →
      sweep_row now u = { u with online := false, updated_at := now }) ∧
    (¬(u.online = true ∧ u.last_seen_at < now - 60) → sweep_row now u = u) := by
  by_cases h : sweep_stale now u = true
  · have hparts : u.last_seen_at < now - 60 ∧ u.online = true := by
      simpa [sweep_stale] using h
    have hne : ({ u with online := false } : UserRec) ≠ u := by
      intro heq
      have := congrArg UserRec.online heq
      rw [hparts.2] at this
      exact Bool.false_ne_true this
    constructor
    · simp [sweep_row, h, commit_user_last_seen_at]
    constructor
    · intro _ _
      simp [sweep_row, h, commit_user, hne]
    · intro hn
      exact absurd ⟨hparts.2, hparts.1⟩ hn
  · have hparts : ¬(u.last_seen_at < now - 60 ∧ u.online = true) := by
      simpa [sweep_stale] using h
    have hrow : sweep_row now u = u := by simp [sweep_row, h]
    refine ⟨by rw [hrow], ?_, fun _ => hrow⟩
    intro ho hl
    exact absurd ⟨hl, ho⟩ hparts

/-- Example rows used to instantiate the theorems on concrete stores. -/
def exStale : UserRec :=
  { id := 1, created_at := 0, updated_at := 10, last_seen_at := 0,
    nickname := "stale", password_hash := "pbkdf2:x", online := true }

def exFresh : UserRec :=
  { id := 2, created_at := 0, updated_at := 90, last_seen_at := 90,
    nickname := "fresh", password_hash := "pbkdf2:y", online := true }

def exIdle : UserRec :=
  { id := 3, created_at := 0, updated_at := 5, last_seen_at := 5,
    nickname := "idle", password_hash := "pbkdf2:z", online := false }

def exFoo : UserRec :=
  { id := 1, created_at := 0, updated_at := 1, last_seen_at := 1,
    nickname := "foo", password_hash := "pbkdf2:a", online := false }

def exBar : UserRec :=
  { id := 2, created_at := 0, updated_at := 2, last_seen_at := 2,
    nickname := "bar", password_hash := "pbkdf2:b", online := false }

/-- C1: running the sweep at time `now` demotes exactly the users that
were online with `last_seen_at < now - 60`: each such row ends with
`online = false` and `updated_at` advanced to the sweep time and its
other fields (in particular `last_seen_at`) intact, while every row that
was already offline or active within the window is completely
unchanged. -/
theorem sweep_demotes_exactly_stale (now : Int) (store : Store) :
    (find_offline_users now store).length = store.length ∧
    ∀ i (hi : i < store.length)
      (hi2 : i < (find_offline_users now store).length),
      ((find_offline_users now store).get ⟨i, hi2⟩).last_seen_at =
        (store.get ⟨i, hi⟩).last_seen_at ∧
      ((store.get ⟨i, hi⟩).online = true →
        (store.get ⟨i, hi⟩).last_seen_at < now - 60 →
        (find_offline_users now store).get ⟨i, hi2⟩ =
          { store.get ⟨i, hi⟩ with online := false, updated_at := now }) ∧
      (¬((store.get ⟨i, hi⟩).online = true ∧
          (store.get ⟨i, hi⟩).last_seen_at < now - 60) →
        (find_offline_users now store).get ⟨i, hi2⟩ = store.get ⟨i, hi⟩) := by
  refine ⟨by simp [find_offline_users], ?_⟩
  intro i hi hi2
  have hget : (find_offline_users now store).get ⟨i, hi2⟩ =
      sweep_row now (store.get ⟨i, hi⟩) := by
    simp [find_offline_users, List.get_eq_getElem, List.getElem_map]
  rw [hget]
  exact sweep_row_spec now (store.get ⟨i, hi⟩)

theorem sweep_demotes_exactly_stale_witness :
    exStale.online = true ∧ exStale.last_seen_at < 100 - 60 ∧
    ¬(exFresh.online = true ∧ exFresh.last_seen_at < 100 - 60) ∧
    (find_offline_users 100 [exStale, exFresh]).get ⟨0, by decide⟩ =
      { exStale with online := false, updated_at := 100 } ∧
    (find_offline_users 100 [exStale, exFresh]).get ⟨1, by decide⟩ = exFresh :=
  ⟨rfl, by decide, by decide,
   ((sweep_demotes_exactly_stale 100 [exStale, exFresh]).2 0 (by decide)
     (by decide)).2.1 rfl (by decide),
   ((sweep_demotes_exactly_stale 100 [exStale, exFresh]).2 1 (by decide)
     (by decide)).2.2 (by decide)⟩

/-- C2: the touch operation at time `t` sets `last_seen_at = t` and
`online = true` and advances `updated_at` (to `t` whenever the touch
changes the row, e.g. for any user not already online; never backwards),
and it is idempotent within the same instant: touching twice at `t`
leaves exactly the state of touching once. -/
theorem touch_sets_presence_and_idempotent (t : Int) (u : UserRec) :
    (touch t u).last_seen_at = t ∧
    (touch t u).online = true ∧
    (u.online = false → (touch t u).updated_at = t) ∧
    (u.updated_at ≤ t → u.updated_at ≤ (touch t u).updated_at) ∧
    touch t (touch t u) = touch t u := by
  by_cases h : ping t u = u
  · have hls : u.last_seen_at = t := by
      have := congrArg UserRec.last_seen_at h
      simpa [ping] using this.symm
    have hon : u.online = true := by
      have := congrArg UserRec.online h
      simpa [ping] using this.symm
    have ht : touch t u = u := by simp [touch, commit_user, h]
    rw [ht]
    refine ⟨hls, hon, ?_, fun _ => le_refl _, ht⟩
    intro hoff
    rw [hoff] at hon
    exact absurd hon (by simp)
  · have ht : touch t u =
        { u with last_seen_at := t, online := true, updated_at := t } := by
      simp only [touch, commit_user, if_neg h]
      rfl
    refine ⟨by rw [ht], by rw [ht], fun _ => by rw [ht], ?_, ?_⟩
    · intro hle
      rw [ht]
      exact hle
    · rw [ht]
      simp [touch, ping, commit_user]

theorem touch_sets_presence_and_idempotent_witness :
    (touch 50 exIdle).last_seen_at = 50 ∧
    (touch 50 exIdle).online = true ∧
    (touch 50 exIdle).updated_at = 50 ∧
    exIdle.updated_at ≤ (touch 50 exIdle).updated_at ∧
    touch 50 (touch 50 exIdle) = touch 50 exIdle :=
  ⟨(touch_sets_presence_and_idempotent 50 exIdle).1,
   (touch_sets_presence_and_idempotent 50 exIdle).2.1,
   (touch_sets_presence_and_idempotent 50 exIdle).2.2.1 rfl,
   (touch_sets_presence_and_idempotent 50 exIdle).2.2.2.1 (by decide),
   (touch_sets_presence_and_idempotent 50 exIdle).2.2.2.2⟩

/-- C3 counterexample: an edit that requests the nickname of a different
stored user is not rejected with 400 — the handler performs no
uniqueness check on the edit path, so the commit hits the database's
UNIQUE constraint and the request fails with 500 (storage unchanged). -/
theorem edit_nickname_collision_not_400 :
    edit_user 60 [exFoo, exBar] 2 2 { nickname := some "foo", password := none } =
      (500, [exFoo, exBar]) ∧
    (500 : Nat) ≠ 400 := by
  constructor
  · decide
  · decide

/-- C3 amended: a create whose nickname is already taken fails with 400
and leaves the store unchanged; an edit whose merged nickname belongs to
a different stored row is not caught by the handler — the UNIQUE
constraint rejects the commit and the request fails with 500, leaving
the store unchanged; and nickname uniqueness (with primary-key
uniqueness) holds in every reachable store state. -/
theorem nickname_uniqueness_spec :
    (∀ now nid store nick pw,
      (lookupByNickname store nick).isSome = true →
      new_user now nid store { nickname := some nick, password := some pw } =
        (400, store)) ∧
    (∀ now store pathId callerId body u,
      lookupById store pathId = some u → u.id = callerId →
      (store.any fun v => v.id ≠ u.id &&
        v.nickname == (from_dict_update u body).nickname) = true →
      edit_user now store pathId callerId body = (500, store)) ∧
    (∀ store, Reachable store → StoreWF store) := by
  refine ⟨?_, ?_, reachable_wf⟩
  · intro now nid store nick pw h
    unfold new_user
    dsimp only
    rw [if_pos h]
  · intro now store pathId callerId body u hu hid hany
    unfold edit_user
    rw [hu]
    dsimp only
    rw [if_neg (fun hne => hne hid), if_pos hany]

theorem nickname_uniqueness_spec_witness :
    new_user 50 3 [exFoo, exBar] { nickname := some "foo", password := some "pw" } =
      (400, [exFoo, exBar]) ∧
    edit_user 60 [exFoo, exBar] 2 2 { nickname := some "foo", password := some "q" } =
      (500, [exFoo, exBar]) ∧
    StoreWF [] :=
  ⟨nickname_uniqueness_spec.1 50 3 [exFoo, exBar] "foo" "pw" (by decide),
   nickname_uniqueness_spec.2.1 60 [exFoo, exBar] 2 2
     { nickname := some "foo", password := some "q" } exBar (by decide) rfl
     (by decide),
   nickname_uniqueness_spec.2.2 [] Reachable.empty⟩

/-- C4 counterexample: the sweep loop body has no try/except, so an
error raised by one iteration propagates out of the loop and the next
scheduled iteration never runs — here the iteration at time 100, which
would have demoted the stale user, is never reached. -/
theorem sweep_loop_error_kills_loop :
    sweep_loop [exStale] [Except.error "db failure", Except.ok 100] =
      Except.error "db failure" ∧
    sweep_iteration [exStale] (Except.ok 100) =
      Except.ok [{ exStale with online := false, updated_at := 100 }] := by
  constructor
  · rfl
  · rfl

/-- C4 amended: an error raised by one iteration of the background
sweep loop is not caught — it propagates out of the loop, terminating
the background task, and no iteration scheduled after the first failing
one runs (the loop's outcome is the first error, whatever follows it in
the schedule). -/
theorem sweep_loop_error_propagates (store : Store) (e : String)
    (pre post : List (Except String Int))
    (hpre : ∀ o ∈ pre, ∃ t, o = Except.ok t) :
    sweep_loop store (pre ++ Except.error e :: post) = Except.error e := by
  induction pre generalizing store with
  | nil => rfl
  | cons o rest ih =>
    obtain ⟨t, rfl⟩ := hpre o (List.mem_cons_self o rest)
    simp only [List.cons_append, sweep_loop, sweep_iteration]
    exact ih _ (fun o2 ho2 => hpre o2 (List.mem_cons_of_mem _ ho2))

theorem sweep_loop_error_propagates_witness :
    sweep_loop [] [Except.ok 10, Except.error "boom", Except.ok 20] =
      Except.error "boom" :=
  sweep_loop_error_propagates [] "boom" [Except.ok 10] [Except.ok 20]
    (by
      intro o ho
      rw [List.mem_singleton] at ho
      exact ⟨10, ho⟩)

/-- C5: a PUT /users/{pathId} carrying a valid token resolved to a
different existing identity always answers 403, for every request body,
and the target user's stored record is left exactly as it was (only the
caller's own presence is touched by `before_request`). -/
theorem foreign_edit_forbidden (now : Int) (store : Store)
    (pathId callerId : Nat) (body : Body) (a b : UserRec)
    (ha : lookupById store callerId = some a)
    (hb : lookupById store pathId = some b)
    (hne : pathId ≠ callerId) :
    (put_user_request now store pathId callerId body).1 = 403 ∧
    lookupById (put_user_request now store pathId callerId body).2 pathId =
      some b := by
  have hbid : b.id = pathId := lookupById_id store pathId b hb
  have hid : ∀ v : UserRec,
      ((fun v => if (v.id == callerId) = true then touch now v else v) v).id
        = v.id := by
    intro v
    by_cases hv : (v.id == callerId) = true
    · simp [hv, touch_id]
    · simp [hv]
  have hreq : put_user_request now store pathId callerId body =
      edit_user now
        (store.map (fun v => if (v.id == callerId) = true then touch now v else v))
        pathId callerId body := by
    unfold put_user_request before_request_ping
    rw [ha]
  have hb2 : lookupById
      (store.map (fun v => if (v.id == callerId) = true then touch now v else v))
      pathId = some b := by
    rw [lookupById_map store _ pathId hid, hb]
    have hbne : (b.id == callerId) = false := by
      rw [hbid]
      simpa using hne
    simp [hbne]
    intro h2
    exact absurd (hbid.symm.trans h2) hne
  rw [hreq]
  unfold edit_user
  rw [hb2]
  dsimp only
  rw [if_pos (by rw [hbid]; exact hne)]
  exact ⟨rfl, hb2⟩

theorem foreign_edit_forbidden_witness :
    (put_user_request 70 [exStale, exBar] 2 1
      { nickname := some "hijack", password := none }).1 = 403 ∧
    lookupById (put_user_request 70 [exStale, exBar] 2 1
      { nickname := some "hijack", password := none }).2 2 = some exBar :=
  foreign_edit_forbidden 70 [exStale, exBar] 2 1
    { nickname := some "hijack", password := none } exStale exBar
    (by decide) (by decide) (by decide)

/-- C6 counterexample: a GET /users with an invalid bearer token does
not proceed as an anonymous request — it is answered 401 (as the test
suite asserts), while the same request without a token succeeds
with 200. -/
theorem invalid_token_read_not_anonymous :
    (get_users_request 0 [] TokenPresented.invalid
      { online := none, updated_since := none }).status = 401 ∧
    (get_users_request 0 [] TokenPresented.missing
      { online := none, updated_since := none }).status = 200 ∧
    get_users_request 0 [] TokenPresented.invalid
        { online := none, updated_since := none } ≠
      get_users_request 0 [] TokenPresented.missing
        { online := none, updated_since := none } := by
  refine ⟨rfl, rfl, ?_⟩
  decide

/-- C6 amended: on the optional-auth read endpoints only a missing
token proceeds as anonymous (the handler runs on the untouched store and
no user's presence is updated); an invalid token is rejected with 401
and nothing is listed or modified, as the repository's test suite pins
(src/tests.py lines 32-34). -/
theorem optional_auth_read_behaviour (now : Int) (store : Store)
    (args : QueryArgs) :
    (get_users_request now store TokenPresented.invalid args).status = 401 ∧
    (get_users_request now store TokenPresented.invalid args).store = store ∧
    (get_users_request now store TokenPresented.invalid args).listed = none ∧
    (get_users_request now store TokenPresented.missing args).store = store ∧
    (get_users_request now store TokenPresented.missing args).listed =
      get_users_list store args := by
  refine ⟨rfl, rfl, rfl, ?_, ?_⟩ <;>
    · unfold get_users_request token_optional_auth
      cases h : get_users_list store args <;> simp [h]

/-- C7: a POST /users whose body carries a fresh nickname and a
password succeeds with 201, appending one record whose `online` is false
and whose `last_seen_at` equals `created_at` (both are the creation
timestamp). -/
theorem create_fresh_user (now : Int) (nid : Nat) (store : Store)
    (body : Body) (nick pw : String)
    (hn : body.nickname = some nick) (hp : body.password = some pw)
    (hfresh : lookupByNickname store nick = none) :
    (new_user now nid store body).1 = 201 ∧
    ∃ u, (new_user now nid store body).2 = store ++ [u] ∧
      u.online = false ∧ u.last_seen_at = u.created_at ∧
      u.created_at = now ∧ u.nickname = nick := by
  obtain ⟨no, po⟩ := body
  cases hn
  cases hp
  unfold new_user
  dsimp only
  rw [hfresh]
  exact ⟨rfl, _, rfl, rfl, rfl, rfl, rfl⟩

theorem create_fresh_user_witness :
    (new_user 100 1 [] { nickname := some "alice", password := some "pw" }).1 =
      201 ∧
    ∃ u, (new_user 100 1 []
        { nickname := some "alice", password := some "pw" }).2 = [] ++ [u] ∧
      u.online = false ∧ u.last_seen_at = u.created_at ∧
      u.created_at = 100 ∧ u.nickname = "alice" :=
  create_fresh_user 100 1 [] { nickname := some "alice", password := some "pw" }
    "alice" "pw" rfl rfl rfl

theorem get_users_list_sorted (store : Store) (args : QueryArgs)
    (l : List UserRec) (hl : get_users_list store args = some l) :
    List.Sorted userOrd l := by
  unfold get_users_list at hl
  dsimp only at hl
  by_cases h2 : argTruthy args.updated_since = true
  · rw [if_pos h2] at hl
    cases hv : python_int (args.updated_since.getD "") with
    | none => rw [hv] at hl; exact absurd hl (by simp)
    | some v =>
      rw [hv] at hl
      have := Option.some.inj hl
      rw [← this]
      exact List.sorted_insertionSort userOrd _
  · rw [if_neg h2] at hl
    have := Option.some.inj hl
    rw [← this]
    exact List.sorted_insertionSort userOrd _

/-- C8: every successful GET /users response is ordered by `updated_at`
ascending with ties broken by `nickname` ascending (the `userOrd`
relation), and a request whose `updated_since` is a non-empty integer
string for the value `v` returns exactly the stored users with
`updated_at >= v`. -/
theorem get_users_sorted_and_updated_since (store : Store)
    (args : QueryArgs) (l : List UserRec)
    (hl : get_users_list store args = some l)
    (v : Int) (s : String) (hs : python_int s = some v) (hne : s ≠ "")
    (lv : List UserRec)
    (hlv : get_users_list store { online := none, updated_since := some s } =
      some lv) :
    List.Sorted userOrd l ∧
    (∀ u, u ∈ lv ↔ u ∈ store ∧ v ≤ u.updated_at) := by
  refine ⟨get_users_list_sorted store args l hl, ?_⟩
  have htr : argTruthy (some s) = true := by
    simp [argTruthy]
    exact hne
  unfold get_users_list at hlv
  dsimp only at hlv
  rw [if_pos htr] at hlv
  rw [show (some s).getD "" = s from rfl, hs] at hlv
  have hveq := Option.some.inj hlv
  intro u
  rw [← hveq]
  rw [List.Perm.mem_iff (List.perm_insertionSort userOrd _)]
  rw [List.mem_filter]
  simp [argTruthy]

theorem get_users_sorted_and_updated_since_witness :
    List.Sorted userOrd [exStale] ∧
    (exStale ∈ [exStale] ↔ exStale ∈ [exStale, exBar] ∧
      (4 : Int) ≤ exStale.updated_at) ∧
    (exBar ∈ [exStale] ↔ exBar ∈ [exStale, exBar] ∧
      (4 : Int) ≤ exBar.updated_at) :=
  ⟨(get_users_sorted_and_updated_since [exStale, exBar]
      { online := none, updated_since := some "4" } [exStale] (by decide)
      4 "4" (by decide) (by decide) [exStale] (by decide)).1,
   (get_users_sorted_and_updated_since [exStale, exBar]
      { online := none, updated_since := some "4" } [exStale] (by decide)
      4 "4" (by decide) (by decide) [exStale] (by decide)).2 exStale,
   (get_users_sorted_and_updated_since [exStale, exBar]
      { online := none, updated_since := some "4" } [exStale] (by decide)
      4 "4" (by decide) (by decide) [exStale] (by decide)).2 exBar⟩

/-- C10: on GET /users the `online` parameter filters only when present
with a non-empty value; the value `'0'` selects the offline users and
every other non-empty value selects the online users; an empty value
applies no filter at all. -/
theorem online_filter_semantics (store : Store) (s : String)
    (l0 lx : List UserRec)
    (h0 : get_users_list store { online := some "0", updated_since := none } =
      some l0)
    (hs1 : s ≠ "") (hs0 : s ≠ "0")
    (hlx : get_users_list store { online := some s, updated_since := none } =
      some lx) :
    get_users_list store { online := some "", updated_since := none } =
      get_users_list store { online := none, updated_since := none } ∧
    (∀ u, u ∈ l0 ↔ u ∈ store ∧ u.online = false) ∧
    (∀ u, u ∈ lx ↔ u ∈ store ∧ u.online = true) := by
  refine ⟨rfl, ?_, ?_⟩
  · have e0 : get_users_list store
        { online := some "0", updated_since := none } =
        some (List.insertionSort userOrd
          (store.filter (fun u => u.online == false))) := rfl
    rw [e0] at h0
    have hinj := Option.some.inj h0
    intro u
    rw [← hinj]
    rw [List.Perm.mem_iff (List.perm_insertionSort userOrd _)]
    rw [List.mem_filter]
    simp
  · have htr : argTruthy (some s) = true := by
      simp [argTruthy]
      exact hs1
    have hb0 : ((some s).getD "" == "0") = false := by simpa using hs0
    have e1 : get_users_list store
        { online := some s, updated_since := none } =
        some (List.insertionSort userOrd
          (store.filter (fun u => u.online == true))) := by
      unfold get_users_list
      dsimp only
      rw [if_pos htr, hb0]
      rfl
    rw [e1] at hlx
    have hinj := Option.some.inj hlx
    intro u
    rw [← hinj]
    rw [List.Perm.mem_iff (List.perm_insertionSort userOrd _)]
    rw [List.mem_filter]
    simp

theorem online_filter_semantics_witness :
    get_users_list [exStale, exBar]
        { online := some "", updated_since := none } =
      get_users_list [exStale, exBar]
        { online := none, updated_since := none } ∧
    (exBar ∈ [exBar] ↔ exBar ∈ [exStale, exBar] ∧ exBar.online = false) ∧
    (exStale ∈ [exStale] ↔ exStale ∈ [exStale, exBar] ∧
      exStale.online = true) :=
  ⟨(online_filter_semantics [exStale, exBar] "1" [exBar] [exStale]
      (by decide) (by decide) (by decide) (by decide)).1,
   (online_filter_semantics [exStale, exBar] "1" [exBar] [exStale]
      (by decide) (by decide) (by decide) (by decide)).2.1 exBar,
   (online_filter_semantics [exStale, exBar] "1" [exBar] [exStale]
      (by decide) (by decide) (by decide) (by decide)).2.2 exStale⟩

/-- A 33-character nickname, one character beyond the declared column
width. -/
def longNick : String := "aaaaaaaaaaaaaaaaaaaaaaaaaaaaaaaaa"

/-- C9 counterexample: a present but malformed nickname is not rejected:
a create with an empty nickname, and one with a 33-character nickname,
both succeed with 201 instead of failing with 400. -/
theorem malformed_nickname_not_rejected :
    longNick.data.length = 33 ∧
    (new_user 0 1 [] { nickname := some "", password := some "pw" }).1 = 201 ∧
    (new_user 0 1 [] { nickname := some longNick, password := some "pw" }).1 =
      201 := by
  refine ⟨?_, rfl, rfl⟩
  decide

/-- C9 amended: the handlers perform no length validation on a present
nickname — a create with any fresh nickname string (empty and
over-32-character ones included) succeeds with 201, and an edit whose
merged nickname collides with no other row succeeds with 204 whatever
the nickname's length; only a missing `nickname` or `password` field on
create is rejected with 400, leaving the store unchanged. -/
theorem create_validation_spec :
    (∀ now nid store body,
      body.nickname = none ∨ body.password = none →
      new_user now nid store body = (400, store)) ∧
    (∀ now nid store nick pw,
      lookupByNickname store nick = none →
      (new_user now nid store { nickname := some nick, password := some pw }).1 =
        201) ∧
    (∀ now store pathId callerId body u,
      lookupById store pathId = some u → u.id = callerId →
      (store.any fun v => v.id ≠ u.id &&
        v.nickname == (from_dict_update u body).nickname) = false →
      (edit_user now store pathId callerId body).1 = 204) := by
  refine ⟨?_, ?_, ?_⟩
  · intro now nid store body h
    obtain ⟨no, po⟩ := body
    rcases h with h | h
    · cases h
      rfl
    · cases h
      cases no <;> rfl
  · intro now nid store nick pw hfresh
    unfold new_user
    dsimp only
    rw [hfresh]
    rfl
  · intro now store pathId callerId body u hu hid hany
    unfold edit_user
    rw [hu]
    dsimp only
    rw [if_neg (fun hne => hne hid), if_neg (by rw [hany]; exact Bool.false_ne_true)]

theorem create_validation_spec_witness :
    new_user 0 1 [] { nickname := none, password := some "pw" } = (400, []) ∧
    (new_user 0 1 [] { nickname := some "", password := some "pw" }).1 = 201 ∧
    (edit_user 5 [exFoo] 1 1 { nickname := some "", password := none }).1 =
      204 :=
  ⟨create_validation_spec.1 0 1 [] { nickname := none, password := some "pw" }
      (Or.inl rfl),
   create_validation_spec.2.1 0 1 [] "" "pw" rfl,
   create_validation_spec.2.2 5 [exFoo] 1 1
     { nickname := some "", password := none } exFoo (by decide) rfl
     (by decide)⟩
